import Mathlib

/-!
Shallow embedding of `user_list_matcher.py`: the tabular reader and writer
helpers (`_read_csv`, `write_csv`, `_read_xlsx`, `read_file`) and the
join/export pass `UserListMatcher._run` (lookup construction, column plan
with append-name disambiguation, and the per-row matching loop).

Rows are modelled as Python dicts via association lists with first-match
lookup and in-place overwrite, which matches insertion-ordered dict
semantics for dict-built lists (keys unique). Cell values handed to `_run`
are strings (both readers produce strings for named columns), so
`str(...)` casts in `_run` are identities; `str.strip()` is modelled by
`pyStrip`. The `csv` module's writer and reader are modelled at the
character level (default dialect: delimiter `,`, quotechar `"`,
QUOTE_MINIMAL, lineterminator `\r\n`); the encoding layer is modelled as
the identity on decoded text, since the writer's `utf-8-sig` output always
decodes under the reader's first candidate encoding `utf-8-sig`.
-/

/-- Python dict lookup `d.get(k)` on an association list: the first matching
key wins, which is the unique occurrence for dict-built lists. -/
def alistGet {α β : Type} [DecidableEq α] : List (α × β) → α → Option β
  | [], _ => none
  | p :: rest, k => if p.1 = k then some p.2 else alistGet rest k

/-- Python dict assignment `d[k] = v`: overwrite the entry in place when the
key is present, otherwise append the new entry at the end (insertion order). -/
def alistInsert {α β : Type} [DecidableEq α] : List (α × β) → α → β → List (α × β)
  | [], k, v => [(k, v)]
  | p :: rest, k, v => if p.1 = k then (k, v) :: rest else p :: alistInsert rest k v

/-- A loaded table row: column name ↦ string cell value (`rows: list of dict`,
values strings as produced by the readers for named columns). -/
abbrev Row := List (String × String)

/-- Python `row.get(k, "")`. -/
def rowGet (r : Row) (k : String) : String := (alistGet r k).getD ""

/-- Whitespace stripped by Python `str.strip()` (the ASCII cases; `strip`
also removes other Unicode whitespace, which the key values produced by the
readers of this program do not rely on). -/
def isSpaceChar (c : Char) : Bool :=
  c = ' ' || c = '\t' || c = '\n' || c = '\r' || c = '\x0b' || c = '\x0c'

/-- Python `str.strip()`: drop leading and trailing whitespace. -/
def pyStrip (s : String) : String :=
  String.mk (((s.data.dropWhile isSpaceChar).reverse.dropWhile isSpaceChar).reverse)

/-- Lines 345–348, loop body: `k = str(row.get(full_key, "")).strip();
if k: lookup[k] = row`. -/
def lookupStep (fullKey : String) (lookup : List (String × Row)) (row : Row) :
    List (String × Row) :=
  let k := pyStrip (rowGet row fullKey)
  if k ≠ "" then alistInsert lookup k row else lookup

/-- Lines 344–348: `lookup = {}`, then the loop over the reference rows. -/
def buildLookup (fullRows : List Row) (fullKey : String) : List (String × Row) :=
  fullRows.foldl (lookupStep fullKey) []

/-- Python truthiness of `src` at line 378 (`if src:`): `None` is falsy and a
dict is truthy when non-empty. -/
def pyTruthy (src : Option Row) : Bool :=
  match src with
  | none => false
  | some s => !s.isEmpty

/-- Line 381: `src.get(src_col, "") if src else ""`. -/
def srcVal (src : Option Row) (srcCol : String) : String :=
  match src with
  | none => ""
  | some s => if s.isEmpty then "" else rowGet s srcCol

/-- Lines 376–379: whether one target row is counted in `matched_count`. -/
def matchedFlag (lookup : List (String × Row)) (maskedKey : String) (row : Row) : Bool :=
  pyTruthy (alistGet lookup (pyStrip (rowGet row maskedKey)))

/-- Lines 375–382, body for one target row: `new_row = dict(row)` (shallow
copy), then `new_row[write_col] = src.get(src_col, "") if src else ""` for
every `(src_col, write_col)` of the column plan, in plan order. -/
def outputRow (lookup : List (String × Row)) (maskedKey : String)
    (plan : List (String × String)) (row : Row) : Row :=
  let src := alistGet lookup (pyStrip (rowGet row maskedKey))
  plan.foldl (fun newRow p => alistInsert newRow p.2 (srcVal src p.1)) row

/-- Lines 372–382: one iteration of the result-row loop, threading
`(result_rows, matched_count)`. -/
def runStep (lookup : List (String × Row)) (maskedKey : String)
    (plan : List (String × String)) (acc : List Row × Nat) (row : Row) : List Row × Nat :=
  let src := alistGet lookup (pyStrip (rowGet row maskedKey))
  let matched := if pyTruthy src then acc.2 + 1 else acc.2
  let newRow := plan.foldl (fun newRow p => alistInsert newRow p.2 (srcVal src p.1)) row
  (acc.1 ++ [newRow], matched)

/-- Lines 372–383: the matching pass over all target rows, starting from
`result_rows = []`, `matched_count = 0`. -/
def runMatch (lookup : List (String × Row)) (maskedKey : String)
    (plan : List (String × String)) (maskedRows : List Row) : List Row × Nat :=
  maskedRows.foldl (runStep lookup maskedKey plan) ([], 0)

/-- One GUI mapping row as `_run` reads it: `full_var` (source column),
`masked_var` (destination column or the new-column sentinel), `mode_var`
(`"overwrite"` or `"append"`), and the `active` flag. -/
structure MappingEntry where
  active : Bool
  fullVar : String
  maskedVar : String
  modeVar : String
deriving DecidableEq

/-- The new-column sentinel `"（新增列）"` compared at line 359. -/
def NEW_COL_SENTINEL : String := "（新增列）"

/-- Decimal rendering of a natural number, as Python's `f"...{suffix}"`
produces for a nonnegative int: base-10 digits, most significant first. -/
def natDecimal (n : Nat) : String := ((Nat.digits 10 n).reverse.map Nat.digitChar).asString

/-- The candidate write-column name tried for counter value `k`: the bare
source column for `k = 0`, then `f"{base}_补全{k}"` for `k ≥ 1`. -/
def candName (base : String) (k : Nat) : String :=
  if k = 0 then base else base ++ "_补全" ++ natDecimal k

/-- Lines 361–365: `write_col = base; suffix = 1;
while write_col in result_headers: write_col = f"{base}_补全{suffix}"; suffix += 1`.
The `while` loop is rendered with fuel; `headers.length + 1` iterations always
reach a name absent from `headers` (proved below). -/
def findGo (base : String) (headers : List String) : String → Nat → Nat → String
  | writeCol, _, 0 => writeCol
  | writeCol, suffix, fuel + 1 =>
    if writeCol ∈ headers then
      findGo base headers (base ++ "_补全" ++ natDecimal suffix) (suffix + 1) fuel
    else writeCol

def findWriteCol (base : String) (headers : List String) : String :=
  findGo base headers base 1 (headers.length + 1)

/-- Lines 353–369: one iteration of the column-plan loop over the active
mapping rows, acting on the pair `(result_headers, col_plan)`. Entries with an
empty source column are skipped; append-mode entries (destination is the
sentinel, or mode is `"append"`) get a collision-free derived name appended to
the headers; otherwise the explicit destination is used verbatim. -/
def planStep (st : List String × List (String × String)) (e : MappingEntry) :
    List String × List (String × String) :=
  if e.fullVar = "" then st
  else if e.maskedVar = NEW_COL_SENTINEL ∨ e.modeVar = "append" then
    let writeCol := findWriteCol e.fullVar st.1
    (st.1 ++ [writeCol], st.2 ++ [(e.fullVar, writeCol)])
  else
    (st.1, st.2 ++ [(e.fullVar, e.maskedVar)])

/-- Lines 338 and 351–369: keep the active mapping rows, then fold the plan
loop starting from `result_headers = list(self.masked_headers)`, `col_plan = []`. -/
def buildPlan (maskedHeaders : List String) (entries : List MappingEntry) :
    List String × List (String × String) :=
  (entries.filter (·.active)).foldl planStep (maskedHeaders, [])

/-- Lines 338–385, after the shell's validation checks: the whole join/export
computation — lookup build, column plan, matching pass. Returns
`(result_headers, (result_rows, matched_count))`. -/
def runExport (fullRows : List Row) (fullKey : String) (maskedHeaders : List String)
    (maskedRows : List Row) (maskedKey : String) (entries : List MappingEntry) :
    List String × (List Row × Nat) :=
  let lookup := buildLookup fullRows fullKey
  let st := buildPlan maskedHeaders entries
  (st.1, runMatch lookup maskedKey st.2 maskedRows)

/-- Characters that force quoting under `csv` QUOTE_MINIMAL with the default
dialect: the delimiter, the quote character and the line-terminator characters. -/
def csvSpecial (c : Char) : Bool := c = ',' || c = '"' || c = '\r' || c = '\n'

def needsQuote (f : String) : Bool := f.data.any csvSpecial

/-- Quote-doubling applied to field content written inside quotes. -/
def escQuotes : List Char → List Char
  | [] => []
  | c :: cs => if c = '"' then '"' :: '"' :: escQuotes cs else c :: escQuotes cs

/-- One field as the `csv` writer emits it: quoted (with doubled inner quotes)
when it contains a special character, verbatim otherwise. -/
def serField (f : String) : List Char :=
  if needsQuote f then '"' :: (escQuotes f.data ++ ['"']) else f.data

/-- One record: fields joined with the delimiter. The `csv` writer
special-cases a record consisting of a single empty field and writes it as a
quoted empty field `""` (under QUOTE_NONE it even raises "single empty field
record must be quoted"), so such a record is NOT written as a blank line; only
a record with no fields at all produces a blank line. -/
def serRecord : List String → List Char
  | [] => []
  | [f] => if f = "" then ['"', '"'] else serField f
  | f :: g :: rest => serField f ++ ',' :: serRecord (g :: rest)

/-- A record list as written to the file: every record is followed by the
`\r\n` terminator. -/
def serializeCsv (recs : List (List String)) : List Char :=
  (recs.map (fun r => serRecord r ++ ['\r', '\n'])).flatten

/-- States of the `csv.reader` character automaton (default dialect, no
escape character). -/
inductive CsvMode where
  | startRecord
  | startField
  | inField
  | inQuoted
  | quoteInQuoted
  | eatCrlf
deriving DecidableEq

structure CsvState where
  recs : List (List String)
  curRec : List String
  curField : List Char
  mode : CsvMode
deriving DecidableEq

/-- Close the current field and add it to the current record. -/
def pushField (st : CsvState) : CsvState :=
  { st with curRec := st.curRec ++ [String.mk st.curField], curField := [] }

/-- Close the current record and add it to the parsed output. -/
def emitRec (st : CsvState) : CsvState :=
  { st with recs := st.recs ++ [st.curRec], curRec := [] }

/-- One character of the `csv.reader` automaton. A record boundary at the
start of a record yields an empty (blank-line) record with no fields; inside a
record it first closes the pending field. Quotes open a quoted field only at
field start; a doubled quote inside a quoted field is a literal quote. -/
def csvStep (st : CsvState) (c : Char) : CsvState :=
  match st.mode with
  | .startRecord =>
    if c = '"' then { st with mode := .inQuoted }
    else if c = ',' then { st with curRec := st.curRec ++ [""], mode := .startField }
    else if c = '\r' then { emitRec st with mode := .eatCrlf }
    else if c = '\n' then { emitRec st with mode := .startRecord }
    else { st with curField := st.curField ++ [c], mode := .inField }
  | .startField =>
    if c = '"' then { st with mode := .inQuoted }
    else if c = ',' then { st with curRec := st.curRec ++ [""], mode := .startField }
    else if c = '\r' then { emitRec (pushField st) with mode := .eatCrlf }
    else if c = '\n' then { emitRec (pushField st) with mode := .startRecord }
    else { st with curField := st.curField ++ [c], mode := .inField }
  | .inField =>
    if c = ',' then { pushField st with mode := .startField }
    else if c = '\r' then { emitRec (pushField st) with mode := .eatCrlf }
    else if c = '\n' then { emitRec (pushField st) with mode := .startRecord }
    else { st with curField := st.curField ++ [c] }
  | .inQuoted =>
    if c = '"' then { st with mode := .quoteInQuoted }
    else { st with curField := st.curField ++ [c] }
  | .quoteInQuoted =>
    if c = '"' then { st with curField := st.curField ++ ['"'], mode := .inQuoted }
    else if c = ',' then { pushField st with mode := .startField }
    else if c = '\r' then { emitRec (pushField st) with mode := .eatCrlf }
    else if c = '\n' then { emitRec (pushField st) with mode := .startRecord }
    else { st with curField := st.curField ++ [c], mode := .inField }
  | .eatCrlf =>
    if c = '\n' then { st with mode := .startRecord }
    else if c = '\r' then st
    else if c = '"' then { st with mode := .inQuoted }
    else if c = ',' then { st with curRec := st.curRec ++ [""], mode := .startField }
    else { st with curField := st.curField ++ [c], mode := .inField }

/-- Flush the automaton at end of input: a final record without a trailing
newline is still produced; a trailing newline leaves nothing pending. -/
def csvFinish (st : CsvState) : List (List String) :=
  match st.mode with
  | .startRecord => st.recs
  | .eatCrlf => st.recs
  | _ => (emitRec (pushField st)).recs

def parseCsv (text : List Char) : List (List String) :=
  csvFinish (text.foldl csvStep ⟨[], [], [], .startRecord⟩)

/-- Values appearing in a `csv.DictReader` row dict: strings for cells, the
overflow list under the restkey, and `None` (`restval`) for missing cells. -/
inductive PyVal where
  | str (s : String)
  | list (xs : List String)
  | none
deriving DecidableEq

/-- Dict keys used by `csv.DictReader`: column-name strings plus the default
restkey `None` for overflow cells. -/
abbrev PyKey := Option String

abbrev PyRow := List (PyKey × PyVal)

def PyVal.isStr : PyVal → Bool
  | .str _ => true
  | _ => false

/-- `csv.DictReader.__next__` dict construction for one data record:
`d = dict(zip(fieldnames, row))`, then — when the record is longer than the
field names — the overflow cells as a list under `d[restkey]` (restkey is
`None`), or — when shorter — the missing field names filled with
`restval = None`. -/
def dictReaderRow (fieldnames : List String) (rec : List String) : PyRow :=
  let d := (fieldnames.zip rec).foldl
    (fun d p => alistInsert d (some p.1) (PyVal.str p.2)) []
  if fieldnames.length < rec.length then
    alistInsert d Option.none (PyVal.list (rec.drop fieldnames.length))
  else if rec.length < fieldnames.length then
    (fieldnames.drop rec.length).foldl (fun d k => alistInsert d (some k) PyVal.none) d
  else d

/-- Line 47, `{k: (v or "") for k, v in r.items()}`: Python `or` keeps truthy
values and replaces falsy ones (`None`, `""`, `[]`) by `""`. -/
def pyOrEmpty : PyVal → PyVal
  | .str s => if s = "" then .str "" else .str s
  | .list xs => if xs = [] then .str "" else .list xs
  | .none => .str ""

/-- Lines 43–48 applied to decoded text: field names are the first parsed
record (`reader.fieldnames or []` — an absent or blank first record gives
`[]`); the data records are the remaining ones, with blank records skipped by
`DictReader`; finally the `(v or "")` cleanup of line 47. -/
def csvReadText (text : List Char) : List String × List PyRow :=
  match parseCsv text with
  | [] => ([], [])
  | hdr :: rest =>
    (hdr, (rest.filter (fun r => !r.isEmpty)).map
      (fun r => (dictReaderRow hdr r).map (fun p => (p.1, pyOrEmpty p.2))))

/-- Lines 85–89 `write_csv`, record level: `csv.DictWriter` with
`fieldnames=headers`, `extrasaction="ignore"` and default `restval=""` writes
the header record and then, per row, the row's value for each header in header
order — missing keys become `""`, keys outside `headers` are dropped. -/
def writeCsvRecords (headers : List String) (rows : List Row) : List (List String) :=
  headers :: rows.map (fun r => headers.map (fun h => rowGet r h))

def writeCsvText (headers : List String) (rows : List Row) : List Char :=
  serializeCsv (writeCsvRecords headers rows)

/-- A disk file as the two readers see it: the decoded text content (for the
delimited reader) and the active-sheet cell grid (for the spreadsheet reader;
one `Option String` per cell, `none` for an empty cell and `some s` for a cell
whose `str()` is `s`). `none` at the filesystem level means that opening the
path raises `FileNotFoundError`/`PermissionError` (missing or unreadable). -/
structure FileData where
  text : List Char
  sheet : List (List (Option String))

abbrev FileSys := String → Option FileData

inductive PyError where
  | valueError (msg : String)
  | ioError (msg : String)
deriving DecidableEq

/-- `os.path.splitext`: basename of the path (text after the last separator). -/
def basenameChars (cs : List Char) : List Char :=
  (cs.reverse.takeWhile (fun c => c ≠ '/')).reverse

/-- `os.path.splitext(path)[1]`: the extension starts at the last dot of the
basename, provided some earlier basename character is not a dot (so names of
leading dots such as `.bashrc` have no extension). -/
def extChars (base : List Char) : List Char :=
  let r := base.reverse
  let afterDotRev := r.takeWhile (fun c => c ≠ '.')
  match r.dropWhile (fun c => c ≠ '.') with
  | [] => []
  | _ :: preRev => if preRev.any (fun c => c ≠ '.') then '.' :: afterDotRev.reverse else []

/-- Line 30: `os.path.splitext(path)[1].lower()`. -/
def splitextLower (path : String) : String :=
  String.mk ((extChars (basenameChars path.data)).map Char.toLower)

/-- Line 41: the candidate encodings tried in order by `_read_csv`. -/
def csvEncodings : List String := ["utf-8-sig", "utf-8", "gbk", "gb2312", "latin-1"]

/-- One iteration of the encoding loop, lines 42–48: opening a missing or
unreadable path raises an `OSError` before any decoding happens; a present
file is modelled as decoding successfully (the code accepts the first decode
attempt that does not raise; decoded text is `FileData.text`). -/
def readCsvTry (fs : FileSys) (path : String) (_enc : String) :
    Except PyError (List String × List PyRow) :=
  match fs path with
  | Option.none => .error (.ioError ("No such file or directory: " ++ path))
  | some fd => .ok (csvReadText fd.text)

/-- Lines 41–51: the `except (UnicodeDecodeError, Exception)` clause catches
every exception — filesystem errors included — and moves on to the next
encoding; when all candidates fail the encoding `ValueError` is raised. -/
def readCsvLoop (fs : FileSys) (path : String) :
    List String → Except PyError (List String × List PyRow)
  | [] => .error (.valueError "无法识别 CSV 文件编码，请另存为 UTF-8 格式后重试。")
  | enc :: rest =>
    match readCsvTry fs path enc with
    | .ok v => .ok v
    | .error _ => readCsvLoop fs path rest

def readCsvFile (fs : FileSys) (path : String) : Except PyError (List String × List PyRow) :=
  readCsvLoop fs path csvEncodings

/-- Lines 54–70 `_read_xlsx` on the active sheet: header cells `str(c)` with
`None → ""`; each data row mapped positionally to the headers, short rows
padded with `""`, extra cells beyond the header length ignored. -/
def readXlsxData (sheet : List (List (Option String))) : List String × List PyRow :=
  match sheet with
  | [] => ([], [])
  | hrow :: rest =>
    let headers := hrow.map (fun c => c.getD "")
    (headers, rest.map (fun raw =>
      headers.enum.foldl
        (fun d p => alistInsert d (some p.2) (PyVal.str ((raw.getD p.1 Option.none).getD ""))) []))

/-- Lines 54–70: `openpyxl.load_workbook` raises `FileNotFoundError` (an
`OSError`) on a missing or unreadable path and `_read_xlsx` has no handler, so
the error propagates; otherwise the active sheet is read. -/
def readXlsxFile (fs : FileSys) (path : String) : Except PyError (List String × List PyRow) :=
  match fs path with
  | Option.none => .error (.ioError ("No such file or directory: " ++ path))
  | some fd => .ok (readXlsxData fd.sheet)

/-- Lines 26–36 `read_file`: dispatch on the lower-cased extension; an
unrecognized extension raises `ValueError("不支持的文件格式：" + ext)`. -/
def readFileModel (fs : FileSys) (path : String) : Except PyError (List String × List PyRow) :=
  let ext := splitextLower path
  if ext = ".csv" then readCsvFile fs path
  else if ext = ".xlsx" ∨ ext = ".xls" ∨ ext = ".xlsm" then readXlsxFile fs path
  else .error (.valueError ("不支持的文件格式：" ++ ext))

/-- Whether a reader result is a filesystem (`IOError`/`OSError`) failure. -/
def isIOErrorResult {α : Type} : Except PyError α → Bool
  | .error (.ioError _) => true
  | _ => false

/-! ## Association-list (Python dict) lemmas -/

theorem alistGet_insert_self {α β : Type} [DecidableEq α] (l : List (α × β)) (k : α) (v : β) :
    alistGet (alistInsert l k v) k = some v := by
  induction l with
  | nil => simp [alistInsert, alistGet]
  | cons p rest ih =>
    by_cases h : p.1 = k
    · simp [alistInsert, h, alistGet]
    · simp [alistInsert, h, alistGet, ih]

theorem alistGet_insert_ne {α β : Type} [DecidableEq α] (l : List (α × β)) (k k' : α) (v : β)
    (h : k' ≠ k) : alistGet (alistInsert l k v) k' = alistGet l k' := by
  have hkk : k ≠ k' := fun hc => h hc.symm
  induction l with
  | nil => simp [alistInsert, alistGet, hkk]
  | cons p rest ih =>
    by_cases hp : p.1 = k
    · subst hp
      simp [alistInsert, alistGet, hkk]
    · rw [show alistInsert (p :: rest) k v = p :: alistInsert rest k v by
        simp [alistInsert, hp]]
      by_cases hp' : p.1 = k'
      · simp [alistGet, hp']
      · simp [alistGet, hp', ih]

theorem alistGet_mem {α β : Type} [DecidableEq α] (l : List (α × β)) (k : α) (v : β)
    (h : alistGet l k = some v) : (k, v) ∈ l := by
  induction l with
  | nil => simp [alistGet] at h
  | cons p rest ih =>
    by_cases hp : p.1 = k
    · simp only [alistGet, hp, if_pos] at h
      injection h with h2
      have hpk : p = (k, v) := by
        obtain ⟨p1, p2⟩ := p
        simp only at hp h2
        rw [hp, h2]
      rw [← hpk]
      exact List.mem_cons_self p rest
    · simp only [alistGet, hp, if_neg, ite_false] at h
      exact List.mem_cons_of_mem _ (ih h)

/-! ## Small `getLast?` helpers -/

theorem getLast?_ne_none_of_cons {α : Type} (a : α) (l : List α) :
    (a :: l).getLast? ≠ Option.none := by
  induction l generalizing a with
  | nil => simp
  | cons b t ih => rw [List.getLast?_cons_cons]; exact ih b

theorem eq_nil_of_getLast?_eq_none {α : Type} (l : List α) (h : l.getLast? = Option.none) :
    l = [] := by
  cases l with
  | nil => rfl
  | cons a t => exact absurd h (getLast?_ne_none_of_cons a t)

theorem getLast?_cons_of_ne_nil {α : Type} (a : α) (l : List α) (h : l ≠ []) :
    (a :: l).getLast? = l.getLast? := by
  cases l with
  | nil => exact absurd rfl h
  | cons b t => exact List.getLast?_cons_cons

theorem mem_of_getLast?_eq {α : Type} (l : List α) (a : α) (h : l.getLast? = some a) :
    a ∈ l := by
  have hmem : a ∈ l.getLast? := h
  obtain ⟨hne, hx⟩ := List.mem_getLast?_eq_getLast hmem
  rw [hx]
  exact List.getLast_mem hne

/-! ## Lookup-table lemmas (lines 344–348) -/

theorem buildLookup_foldl_get (key k : String) (hk : k ≠ "") :
    ∀ (rows : List Row) (lk : List (String × Row)),
      alistGet (rows.foldl (lookupStep key) lk) k =
        match (rows.filter (fun r => pyStrip (rowGet r key) == k)).getLast? with
        | some r => some r
        | Option.none => alistGet lk k := by
  intro rows
  induction rows with
  | nil => intro lk; simp
  | cons r rest ih =>
    intro lk
    rw [List.foldl_cons, List.filter_cons]
    by_cases hr : pyStrip (rowGet r key) = k
    · have hbeq : (pyStrip (rowGet r key) == k) = true := beq_iff_eq.mpr hr
      rw [hbeq]
      simp only [ite_true]
      have hstep : lookupStep key lk r = alistInsert lk k r := by
        simp [lookupStep, hr, hk]
      rw [hstep, ih]
      cases hlast : (rest.filter (fun r => pyStrip (rowGet r key) == k)).getLast? with
      | none =>
        have hnil : rest.filter (fun r => pyStrip (rowGet r key) == k) = [] :=
          eq_nil_of_getLast?_eq_none _ hlast
        simp [hnil, alistGet_insert_self]
      | some q =>
        have hne : rest.filter (fun r => pyStrip (rowGet r key) == k) ≠ [] := by
          intro hc
          rw [hc] at hlast
          simp at hlast
        rw [getLast?_cons_of_ne_nil r _ hne, hlast]
    · have hbeq : (pyStrip (rowGet r key) == k) = false := by
        simp [hr]
      rw [hbeq]
      simp only [Bool.false_eq_true, ite_false]
      have hstep : alistGet (lookupStep key lk r) k = alistGet lk k := by
        by_cases hz : pyStrip (rowGet r key) = ""
        · simp [lookupStep, hz]
        · simp only [lookupStep, hz, ne_eq, not_false_iff, if_pos, ite_true]
          exact alistGet_insert_ne _ _ _ _ (fun hc => hr hc.symm)
      rw [ih, hstep]

theorem buildLookup_get (fullRows : List Row) (fullKey k : String) (hk : k ≠ "") :
    alistGet (buildLookup fullRows fullKey) k =
      (fullRows.filter (fun r => pyStrip (rowGet r fullKey) == k)).getLast? := by
  rw [buildLookup, buildLookup_foldl_get fullKey k hk]
  cases (fullRows.filter (fun r => pyStrip (rowGet r fullKey) == k)).getLast? <;> simp [alistGet]

theorem buildLookup_get_empty_key (fullRows : List Row) (fullKey : String) :
    alistGet (buildLookup fullRows fullKey) "" = Option.none := by
  rw [buildLookup]
  have : ∀ (rows : List Row) (lk : List (String × Row)), alistGet lk "" = Option.none →
      alistGet (rows.foldl (lookupStep fullKey) lk) "" = Option.none := by
    intro rows
    induction rows with
    | nil => intro lk h; simpa using h
    | cons r rest ih =>
      intro lk h
      rw [List.foldl_cons]
      apply ih
      by_cases hz : pyStrip (rowGet r fullKey) = ""
      · simpa [lookupStep, hz] using h
      · simp only [lookupStep, hz, ne_eq, not_false_iff, ite_true]
        rw [alistGet_insert_ne _ _ _ _ (fun hc => hz hc.symm)]
        exact h
  exact this fullRows [] rfl

theorem rowGet_nil (k : String) : rowGet [] k = "" := rfl

theorem pyStrip_empty : pyStrip "" = "" := rfl

theorem pyTruthy_some (r : Row) (h : r ≠ []) : pyTruthy (some r) = true := by
  cases r with
  | nil => exact absurd rfl h
  | cons a t => rfl

theorem row_nonempty_of_trim_key (r : Row) (key k : String)
    (hr : pyStrip (rowGet r key) = k) (hk : k ≠ "") : r ≠ [] := by
  intro hc
  subst hc
  rw [rowGet_nil, pyStrip_empty] at hr
  exact hk hr.symm

/-! ## Matching-pass lemmas (lines 372–383) -/

theorem runMatch_foldl (lookup : List (String × Row)) (maskedKey : String)
    (plan : List (String × String)) :
    ∀ (rows : List Row) (a : List Row) (m : Nat),
      rows.foldl (runStep lookup maskedKey plan) (a, m) =
        (a ++ rows.map (outputRow lookup maskedKey plan),
         m + rows.countP (matchedFlag lookup maskedKey)) := by
  intro rows
  induction rows with
  | nil => intro a m; simp
  | cons r rest ih =>
    intro a m
    rw [List.foldl_cons]
    have hstep : runStep lookup maskedKey plan (a, m) r =
        (a ++ [outputRow lookup maskedKey plan r],
         if matchedFlag lookup maskedKey r then m + 1 else m) := rfl
    rw [hstep, ih]
    rw [List.map_cons, List.countP_cons]
    have h1 : a ++ [outputRow lookup maskedKey plan r] ++
        rest.map (outputRow lookup maskedKey plan) =
        a ++ outputRow lookup maskedKey plan r :: rest.map (outputRow lookup maskedKey plan) := by
      simp
    have h2 : (if matchedFlag lookup maskedKey r then m + 1 else m) +
        rest.countP (matchedFlag lookup maskedKey) =
        m + (rest.countP (matchedFlag lookup maskedKey) +
          if matchedFlag lookup maskedKey r then 1 else 0) := by
      by_cases hm : matchedFlag lookup maskedKey r
      · simp [hm]
        omega
      · simp [hm]
    rw [h1, h2]

theorem runMatch_eq (lookup : List (String × Row)) (maskedKey : String)
    (plan : List (String × String)) (rows : List Row) :
    runMatch lookup maskedKey plan rows =
      (rows.map (outputRow lookup maskedKey plan),
       rows.countP (matchedFlag lookup maskedKey)) := by
  rw [runMatch, runMatch_foldl]
  simp

theorem matchedFlag_iff (fullRows : List Row) (fullKey maskedKey : String) (row : Row) :
    matchedFlag (buildLookup fullRows fullKey) maskedKey row = true ↔
      (pyStrip (rowGet row maskedKey) ≠ "" ∧
       ∃ ref ∈ fullRows, pyStrip (rowGet ref fullKey) = pyStrip (rowGet row maskedKey)) := by
  set t := pyStrip (rowGet row maskedKey) with ht
  constructor
  · intro h
    by_cases htz : t = ""
    · rw [matchedFlag, ← ht, htz, buildLookup_get_empty_key] at h
      simp [pyTruthy] at h
    · refine ⟨htz, ?_⟩
      rw [matchedFlag, ← ht, buildLookup_get fullRows fullKey t htz] at h
      cases hlast : (fullRows.filter (fun r => pyStrip (rowGet r fullKey) == t)).getLast? with
      | none => rw [hlast] at h; simp [pyTruthy] at h
      | some q =>
        have hq : q ∈ fullRows.filter (fun r => pyStrip (rowGet r fullKey) == t) :=
          mem_of_getLast?_eq _ _ hlast
        rw [List.mem_filter] at hq
        exact ⟨q, hq.1, beq_iff_eq.mp hq.2⟩
  · rintro ⟨htz, ref, href, hrefk⟩
    rw [matchedFlag, ← ht, buildLookup_get fullRows fullKey t htz]
    have hmem : ref ∈ fullRows.filter (fun r => pyStrip (rowGet r fullKey) == t) :=
      List.mem_filter.mpr ⟨href, beq_iff_eq.mpr hrefk⟩
    have hne : fullRows.filter (fun r => pyStrip (rowGet r fullKey) == t) ≠ [] := by
      intro hc
      rw [hc] at hmem
      simp at hmem
    rw [List.getLast?_eq_getLast_of_ne_nil hne]
    have hqmem : (fullRows.filter (fun r => pyStrip (rowGet r fullKey) == t)).getLast hne ∈
        fullRows.filter (fun r => pyStrip (rowGet r fullKey) == t) := List.getLast_mem hne
    rw [List.mem_filter] at hqmem
    have hqt : pyStrip (rowGet ((fullRows.filter
        (fun r => pyStrip (rowGet r fullKey) == t)).getLast hne) fullKey) = t :=
      beq_iff_eq.mp hqmem.2
    have hqne := row_nonempty_of_trim_key _ fullKey t hqt htz
    exact pyTruthy_some _ hqne

/-- C1: for every run of the matcher/exporter over loaded datasets, a key
selection and mapping entries, the output row list has exactly one row per
target row, in the same order: `len(output_rows) == len(target_rows)` and
output row `i` is `outputRow` of target row `i` — no row is dropped or
reordered. -/
theorem run_preserves_row_count_and_order (fullRows : List Row) (fullKey : String)
    (maskedHeaders : List String) (maskedRows : List Row) (maskedKey : String)
    (entries : List MappingEntry) :
    (runExport fullRows fullKey maskedHeaders maskedRows maskedKey entries).2.1 =
      maskedRows.map (outputRow (buildLookup fullRows fullKey) maskedKey
        (buildPlan maskedHeaders entries).2) ∧
    (runExport fullRows fullKey maskedHeaders maskedRows maskedKey entries).2.1.length =
      maskedRows.length := by
  have h : (runExport fullRows fullKey maskedHeaders maskedRows maskedKey entries).2.1 =
      maskedRows.map (outputRow (buildLookup fullRows fullKey) maskedKey
        (buildPlan maskedHeaders entries).2) := by
    show (runMatch (buildLookup fullRows fullKey) maskedKey
        (buildPlan maskedHeaders entries).2 maskedRows).1 = _
    rw [runMatch_eq]
  exact ⟨h, by rw [h, List.length_map]⟩

/-- C2: a target row is matched (counted in `matched_count` and used as the
source of reference values) exactly when its stripped key value is non-empty
and equals the stripped key value of some reference row; rows with empty
stripped keys never match because such reference rows are never inserted in
the lookup table. -/
theorem matched_iff_trimmed_key_equal (fullRows : List Row) (fullKey : String)
    (maskedHeaders : List String) (maskedRows : List Row) (maskedKey : String)
    (entries : List MappingEntry) :
    ((runExport fullRows fullKey maskedHeaders maskedRows maskedKey entries).2.2 =
      maskedRows.countP (matchedFlag (buildLookup fullRows fullKey) maskedKey)) ∧
    (∀ row : Row,
      matchedFlag (buildLookup fullRows fullKey) maskedKey row = true ↔
        (pyStrip (rowGet row maskedKey) ≠ "" ∧
         ∃ ref ∈ fullRows,
           pyStrip (rowGet ref fullKey) = pyStrip (rowGet row maskedKey))) := by
  constructor
  · show (runMatch (buildLookup fullRows fullKey) maskedKey
        (buildPlan maskedHeaders entries).2 maskedRows).2 = _
    rw [runMatch_eq]
  · intro row
    exact matchedFlag_iff fullRows fullKey maskedKey row

/-! ## Column-plan lemmas (lines 351–369) -/

theorem digitChar_inj_lt : ∀ a < 10, ∀ b < 10, Nat.digitChar a = Nat.digitChar b → a = b := by
  decide

theorem map_digitChar_inj : ∀ (l1 l2 : List Nat), (∀ x ∈ l1, x < 10) → (∀ x ∈ l2, x < 10) →
    l1.map Nat.digitChar = l2.map Nat.digitChar → l1 = l2 := by
  intro l1
  induction l1 with
  | nil =>
    intro l2 _ _ h
    cases l2 with
    | nil => rfl
    | cons b t => simp at h
  | cons a t1 ih =>
    intro l2 h1 h2 h
    cases l2 with
    | nil => simp at h
    | cons b t2 =>
      simp only [List.map_cons, List.cons.injEq] at h
      have ha : a < 10 := h1 a (List.mem_cons_self a t1)
      have hb : b < 10 := h2 b (List.mem_cons_self b t2)
      have hab : a = b := digitChar_inj_lt a ha b hb h.1
      have ht : t1 = t2 := ih t2 (fun x hx => h1 x (List.mem_cons_of_mem _ hx))
        (fun x hx => h2 x (List.mem_cons_of_mem _ hx)) h.2
      rw [hab, ht]

theorem natDecimal_injective : Function.Injective natDecimal := by
  intro m n h
  rw [natDecimal, natDecimal, List.asString_inj] at h
  have hm : ∀ x ∈ (Nat.digits 10 m).reverse, x < 10 := fun x hx =>
    Nat.digits_lt_base (by norm_num) (List.mem_reverse.mp hx)
  have hn : ∀ x ∈ (Nat.digits 10 n).reverse, x < 10 := fun x hx =>
    Nat.digits_lt_base (by norm_num) (List.mem_reverse.mp hx)
  have h2 : (Nat.digits 10 m).reverse = (Nat.digits 10 n).reverse :=
    map_digitChar_inj _ _ hm hn h
  have h3 : Nat.digits 10 m = Nat.digits 10 n := List.reverse_injective h2
  have h4 := congrArg (Nat.ofDigits 10) h3
  rw [Nat.ofDigits_digits, Nat.ofDigits_digits] at h4
  exact_mod_cast h4

theorem string_data_inj (a b : String) (h : a.data = b.data) : a = b := by
  cases a
  cases b
  exact congrArg String.mk h

theorem append_left_cancel_str (a x y : String) (h : a ++ x = a ++ y) : x = y := by
  apply string_data_inj
  have hd := congrArg String.data h
  rw [String.data_append, String.data_append] at hd
  exact List.append_cancel_left hd

theorem suffix_append_length (base s : String) : (base ++ "_补全" ++ s).length =
    base.length + 3 + s.length := by
  rw [String.length_append, String.length_append]
  rfl

theorem candName_injective (base : String) : Function.Injective (candName base) := by
  intro i j h
  rcases Nat.eq_zero_or_pos i with hi | hi <;> rcases Nat.eq_zero_or_pos j with hj | hj
  · omega
  · exfalso
    rw [candName, candName, if_pos hi, if_neg (by omega)] at h
    have := congrArg String.length h
    rw [suffix_append_length] at this
    omega
  · exfalso
    rw [candName, candName, if_neg (by omega), if_pos hj] at h
    have := congrArg String.length h
    rw [suffix_append_length] at this
    omega
  · rw [candName, candName, if_neg (by omega), if_neg (by omega)] at h
    have h2 : natDecimal i = natDecimal j :=
      append_left_cancel_str (base ++ "_补全") _ _ h
    exact natDecimal_injective h2

theorem candName_exists_not_mem (base : String) (headers : List String) :
    ∃ j ≤ headers.length, candName base (j + 1) ∉ headers := by
  by_contra hc
  push_neg at hc
  set n := headers.length with hn
  have hinj : Function.Injective (fun j : Nat => candName base (j + 1)) := by
    intro a b hab
    have := candName_injective base hab
    omega
  have hnd : ((List.range (n + 1)).map (fun j => candName base (j + 1))).Nodup :=
    (List.nodup_range (n + 1)).map hinj
  have hcard : ((List.range (n + 1)).map (fun j => candName base (j + 1))).toFinset.card
      = n + 1 := by
    rw [List.toFinset_card_of_nodup hnd, List.length_map, List.length_range]
  have hsub : ((List.range (n + 1)).map (fun j => candName base (j + 1))).toFinset ⊆
      headers.toFinset := by
    intro x hx
    rw [List.mem_toFinset, List.mem_map] at hx
    obtain ⟨j, hj, rfl⟩ := hx
    rw [List.mem_range] at hj
    exact List.mem_toFinset.mpr (hc j (by omega))
  have h1 := Finset.card_le_card hsub
  have h2 := headers.toFinset_card_le
  omega

theorem findGo_eq (base : String) (headers : List String) :
    ∀ (fuel i : Nat), (∃ t ≤ fuel, candName base (i + t) ∉ headers) →
      ∃ k, i ≤ k ∧ candName base k ∉ headers ∧
        (∀ j, i ≤ j → j < k → candName base j ∈ headers) ∧
        findGo base headers (candName base i) (i + 1) fuel = candName base k := by
  intro fuel
  induction fuel with
  | zero =>
    intro i ⟨t, ht, hmem⟩
    have ht0 : t = 0 := Nat.le_zero.mp ht
    subst ht0
    exact ⟨i, le_refl i, hmem, fun j h1 h2 => absurd (lt_of_le_of_lt h1 h2) (lt_irrefl i),
      rfl⟩
  | succ fuel ih =>
    intro i ⟨t, ht, hmem⟩
    by_cases hin : candName base i ∈ headers
    · have hstep : findGo base headers (candName base i) (i + 1) (fuel + 1) =
          findGo base headers (candName base (i + 1)) (i + 2) fuel := by
        rw [findGo, if_pos hin]
        have : base ++ "_补全" ++ natDecimal (i + 1) = candName base (i + 1) := by
          rw [candName, if_neg (Nat.succ_ne_zero i)]
        rw [this]
      have hex : ∃ t ≤ fuel, candName base (i + 1 + t) ∉ headers := by
        cases t with
        | zero =>
          exfalso
          rw [Nat.add_zero] at hmem
          exact hmem hin
        | succ t2 =>
          refine ⟨t2, by omega, ?_⟩
          have : i + 1 + t2 = i + (t2 + 1) := by omega
          rw [this]
          exact hmem
      obtain ⟨k, hk1, hk2, hk3, hk4⟩ := ih (i + 1) hex
      refine ⟨k, by omega, hk2, ?_, by rw [hstep, hk4]⟩
      intro j h1 h2
      rcases Nat.eq_or_lt_of_le h1 with heq | hlt
      · rw [← heq]
        exact hin
      · exact hk3 j hlt h2
    · refine ⟨i, le_refl i, hin, fun j h1 h2 => absurd (lt_of_le_of_lt h1 h2) (lt_irrefl i),
        ?_⟩
      rw [findGo, if_neg hin]

theorem findWriteCol_spec (base : String) (headers : List String) :
    ∃ k, findWriteCol base headers = candName base k ∧ candName base k ∉ headers ∧
      ∀ j < k, candName base j ∈ headers := by
  have hex : ∃ t ≤ headers.length + 1, candName base (0 + t) ∉ headers := by
    by_cases hb : base ∈ headers
    · obtain ⟨j, hj, hmem⟩ := candName_exists_not_mem base headers
      exact ⟨j + 1, by omega, by rw [Nat.zero_add]; exact hmem⟩
    · exact ⟨0, by omega, by
        rw [Nat.add_zero]
        rw [show candName base 0 = base from by rw [candName, if_pos rfl]]
        exact hb⟩
  obtain ⟨k, _, hk2, hk3, hk4⟩ := findGo_eq base headers (headers.length + 1) 0 hex
  have hbase : candName base 0 = base := by rw [candName, if_pos rfl]
  refine ⟨k, ?_, hk2, fun j hj => hk3 j (Nat.zero_le j) hj⟩
  rw [findWriteCol, ← hbase]
  rw [show (0 : Nat) + 1 = 1 from rfl] at hk4
  exact hk4

theorem planStep_append_eq (st : List String × List (String × String)) (e : MappingEntry)
    (h1 : e.fullVar ≠ "") (h2 : e.maskedVar = NEW_COL_SENTINEL ∨ e.modeVar = "append") :
    planStep st e = (st.1 ++ [findWriteCol e.fullVar st.1],
      st.2 ++ [(e.fullVar, findWriteCol e.fullVar st.1)]) := by
  rw [planStep, if_neg h1, if_pos h2]

theorem planStep_headers_extend (st : List String × List (String × String))
    (e : MappingEntry) : ∃ d, (planStep st e).1 = st.1 ++ d := by
  by_cases h1 : e.fullVar = ""
  · exact ⟨[], by rw [planStep, if_pos h1, List.append_nil]⟩
  · by_cases h2 : e.maskedVar = NEW_COL_SENTINEL ∨ e.modeVar = "append"
    · exact ⟨[findWriteCol e.fullVar st.1], by rw [planStep, if_neg h1, if_pos h2]⟩
    · exact ⟨[], by rw [planStep, if_neg h1, if_neg h2, List.append_nil]⟩

theorem foldl_planStep_headers_extend :
    ∀ (es : List MappingEntry) (st : List String × List (String × String)),
      ∃ app, (es.foldl planStep st).1 = st.1 ++ app := by
  intro es
  induction es with
  | nil => exact fun st => ⟨[], by simp⟩
  | cons e rest ih =>
    intro st
    rw [List.foldl_cons]
    obtain ⟨d, hd⟩ := planStep_headers_extend st e
    obtain ⟨app, happ⟩ := ih (planStep st e)
    exact ⟨d ++ app, by rw [happ, hd, List.append_assoc]⟩

theorem buildPlan_headers_extend (maskedHeaders : List String) (entries : List MappingEntry) :
    ∃ app, (buildPlan maskedHeaders entries).1 = maskedHeaders ++ app := by
  rw [buildPlan]
  exact foldl_planStep_headers_extend _ _

/-! ## Output-row write lemmas (lines 375–382) -/

theorem writeFold_frame (src : Option Row) :
    ∀ (plan : List (String × String)) (row : Row) (w : String),
      w ∉ plan.map (fun p => p.2) →
      alistGet (plan.foldl (fun nr p => alistInsert nr p.2 (srcVal src p.1)) row) w =
        alistGet row w := by
  intro plan
  induction plan with
  | nil => intro row w _; rfl
  | cons p rest ih =>
    intro row w hw
    rw [List.map_cons] at hw
    have hw1 : w ≠ p.2 := fun hc => hw (by rw [hc]; exact List.mem_cons_self _ _)
    have hw2 : w ∉ rest.map (fun p => p.2) := fun hc => hw (List.mem_cons_of_mem _ hc)
    rw [List.foldl_cons, ih _ w hw2, alistGet_insert_ne _ _ _ _ hw1]

theorem writeFold_lastWrite (src : Option Row) :
    ∀ (plan : List (String × String)) (row : Row) (w : String) (pr : String × String),
      (plan.filter (fun p => p.2 == w)).getLast? = some pr →
      alistGet (plan.foldl (fun nr p => alistInsert nr p.2 (srcVal src p.1)) row) w =
        some (srcVal src pr.1) := by
  intro plan
  induction plan with
  | nil => intro row w pr h; simp at h
  | cons p rest ih =>
    intro row w pr h
    rw [List.filter_cons] at h
    by_cases hp : p.2 = w
    · rw [show (p.2 == w) = true from beq_iff_eq.mpr hp] at h
      simp only [ite_true] at h
      cases hlast : (rest.filter (fun q => q.2 == w)).getLast? with
      | none =>
        have hnil := eq_nil_of_getLast?_eq_none _ hlast
        rw [hnil] at h
        have hpr : p = pr := by
          have : ([p] : List (String × String)).getLast? = some p := rfl
          rw [this] at h
          injection h
        subst hpr
        have hw : w ∉ rest.map (fun q => q.2) := by
          intro hc
          rw [List.mem_map] at hc
          obtain ⟨q, hq1, hq2⟩ := hc
          have hmem : q ∈ rest.filter (fun q => q.2 == w) :=
            List.mem_filter.mpr ⟨hq1, beq_iff_eq.mpr hq2⟩
          rw [hnil] at hmem
          simp at hmem
        rw [List.foldl_cons, writeFold_frame src rest _ w hw, ← hp]
        exact alistGet_insert_self _ _ _
      | some q =>
        have hne : rest.filter (fun q => q.2 == w) ≠ [] := by
          intro hc
          rw [hc] at hlast
          simp at hlast
        rw [getLast?_cons_of_ne_nil p _ hne] at h
        rw [List.foldl_cons]
        exact ih _ w pr h
    · rw [show (p.2 == w) = false from by simp [hp]] at h
      simp only [Bool.false_eq_true, ite_false] at h
      rw [List.foldl_cons]
      exact ih _ w pr h

theorem buildLookup_nil_of_absent (fullKey : String) :
    ∀ (rows : List Row), (∀ r ∈ rows, alistGet r fullKey = Option.none) →
      rows.foldl (lookupStep fullKey) [] = [] := by
  intro rows
  induction rows with
  | nil => intro _; rfl
  | cons r rest ih =>
    intro h
    rw [List.foldl_cons]
    have hr : alistGet r fullKey = Option.none := h r (List.mem_cons_self r rest)
    have hstep : lookupStep fullKey [] r = [] := by
      simp [lookupStep, rowGet, hr, pyStrip_empty]
    rw [hstep]
    exact ih (fun q hq => h q (List.mem_cons_of_mem _ hq))

/-- C3: when several reference rows share the same stripped key, the row
occurring later in the reference sequence is the one stored in the lookup
table, and it therefore determines every value written into target rows that
match that key. -/
theorem duplicate_reference_keys_later_wins (fullRows : List Row) (fullKey k : String)
    (hk : k ≠ "") :
    alistGet (buildLookup fullRows fullKey) k =
      (fullRows.filter (fun r => pyStrip (rowGet r fullKey) == k)).getLast? ∧
    ∀ (maskedKey : String) (plan : List (String × String)) (row : Row),
      pyStrip (rowGet row maskedKey) = k →
      outputRow (buildLookup fullRows fullKey) maskedKey plan row =
        plan.foldl (fun nr p => alistInsert nr p.2
          (srcVal ((fullRows.filter (fun r => pyStrip (rowGet r fullKey) == k)).getLast?)
            p.1)) row := by
  have hget := buildLookup_get fullRows fullKey k hk
  refine ⟨hget, ?_⟩
  intro maskedKey plan row hrow
  show plan.foldl (fun nr p => alistInsert nr p.2
      (srcVal (alistGet (buildLookup fullRows fullKey) (pyStrip (rowGet row maskedKey)))
        p.1)) row = _
  rw [hrow, hget]

/-- C4: each output row is the shallow-copied target row in which, for every
plan pair taken in plan order, the write column holds the matched reference
value (or `""` when unmatched or the source column is absent); when several
plan pairs share a write column, the value of the last such pair is the one
present — last write wins, no error raised. -/
theorem output_value_last_plan_entry_wins (lookup : List (String × Row)) (maskedKey : String)
    (plan : List (String × String)) (row : Row) (w : String) (pr : String × String)
    (h : (plan.filter (fun p => p.2 == w)).getLast? = some pr) :
    alistGet (outputRow lookup maskedKey plan row) w =
      some (srcVal (alistGet lookup (pyStrip (rowGet row maskedKey))) pr.1) :=
  writeFold_lastWrite _ plan row w pr h

/-- C5: for an active append-mode mapping entry, the resolved write column is
the first collision-free candidate `candName` (the bare source name, then
suffixed names with the counter starting at 1 and incrementing while the name
still occurs in the headers); the resolved name is not already present, it is
appended at the end of the output headers, and the original target headers
always stay as an unchanged front segment of the output headers. -/
theorem append_mode_collision_resolution (st : List String × List (String × String))
    (e : MappingEntry) (h1 : e.fullVar ≠ "")
    (h2 : e.maskedVar = NEW_COL_SENTINEL ∨ e.modeVar = "append") :
    (∃ k, findWriteCol e.fullVar st.1 = candName e.fullVar k ∧
      candName e.fullVar k ∉ st.1 ∧ ∀ j < k, candName e.fullVar j ∈ st.1) ∧
    planStep st e = (st.1 ++ [findWriteCol e.fullVar st.1],
      st.2 ++ [(e.fullVar, findWriteCol e.fullVar st.1)]) ∧
    ∀ (maskedHeaders : List String) (entries : List MappingEntry),
      ∃ app, (buildPlan maskedHeaders entries).1 = maskedHeaders ++ app :=
  ⟨findWriteCol_spec e.fullVar st.1, planStep_append_eq st e h1 h2,
    fun maskedHeaders entries => buildPlan_headers_extend maskedHeaders entries⟩

/-- C6: a column that is not the write column of any plan entry keeps its
target-row value unchanged in the output row. (The run never mutates the
loaded datasets: `_run` only reads `self.full_rows`/`self.masked_rows` and
writes into the fresh `new_row = dict(row)` copies, as this pure embedding
reflects.) -/
theorem non_write_columns_unchanged (lookup : List (String × Row)) (maskedKey : String)
    (plan : List (String × String)) (row : Row) (w : String)
    (h : w ∉ plan.map (fun p => p.2)) :
    alistGet (outputRow lookup maskedKey plan row) w = alistGet row w :=
  writeFold_frame _ plan row w h

/-- C10: when the reference key column is absent from every reference row, the
run raises no error; the lookup table is empty, `matched_count` is 0, every
planned write column holds `""` in every output row, and all other target
fields are preserved. -/
theorem absent_reference_key_column (fullRows : List Row) (fullKey : String)
    (maskedHeaders : List String) (maskedRows : List Row) (maskedKey : String)
    (entries : List MappingEntry)
    (h : ∀ r ∈ fullRows, alistGet r fullKey = Option.none) :
    buildLookup fullRows fullKey = [] ∧
    (runExport fullRows fullKey maskedHeaders maskedRows maskedKey entries).2.2 = 0 ∧
    (runExport fullRows fullKey maskedHeaders maskedRows maskedKey entries).2.1 =
      maskedRows.map (fun row =>
        (buildPlan maskedHeaders entries).2.foldl (fun nr p => alistInsert nr p.2 "") row) ∧
    ∀ (row : Row) (w : String),
      w ∉ (buildPlan maskedHeaders entries).2.map (fun p => p.2) →
      alistGet (outputRow (buildLookup fullRows fullKey) maskedKey
        (buildPlan maskedHeaders entries).2 row) w = alistGet row w := by
  have hlk : buildLookup fullRows fullKey = [] := by
    rw [buildLookup]
    exact buildLookup_nil_of_absent fullKey fullRows h
  refine ⟨hlk, ?_, ?_, ?_⟩
  · show (runMatch (buildLookup fullRows fullKey) maskedKey
        (buildPlan maskedHeaders entries).2 maskedRows).2 = 0
    rw [runMatch_eq, hlk]
    rw [List.countP_eq_zero]
    intro a _
    simp [matchedFlag, alistGet, pyTruthy]
  · show (runMatch (buildLookup fullRows fullKey) maskedKey
        (buildPlan maskedHeaders entries).2 maskedRows).1 = _
    rw [runMatch_eq, hlk]
    rfl
  · intro row w hw
    exact writeFold_frame _ _ row w hw

/-- Witness for C3: a reference list with key `"1"` occurring twice. -/
theorem duplicate_reference_keys_later_wins_witness :
    ("1" : String) ≠ "" ∧
    alistGet (buildLookup [[("id", "1"), ("name", "A")], [("id", "1"), ("name", "B")]] "id")
        "1" =
      (([[("id", "1"), ("name", "A")], [("id", "1"), ("name", "B")]] : List Row).filter
        (fun r => pyStrip (rowGet r "id") == "1")).getLast? :=
  ⟨by decide, (duplicate_reference_keys_later_wins
    [[("id", "1"), ("name", "A")], [("id", "1"), ("name", "B")]] "id" "1" (by decide)).1⟩

/-- Witness for C4: two plan pairs writing the same column `"dept"`. -/
theorem output_value_last_plan_entry_wins_witness :
    (([("name", "dept"), ("tel", "dept")] : List (String × String)).filter
      (fun p => p.2 == "dept")).getLast? = some ("tel", "dept") ∧
    alistGet (outputRow [("1", [("id", "1"), ("tel", "13")])] "uid"
        [("name", "dept"), ("tel", "dept")] [("uid", "1")]) "dept" =
      some (srcVal (alistGet [("1", [("id", "1"), ("tel", "13")])]
        (pyStrip (rowGet [("uid", "1")] "uid"))) "tel") :=
  ⟨by decide, output_value_last_plan_entry_wins [("1", [("id", "1"), ("tel", "13")])] "uid"
    [("name", "dept"), ("tel", "dept")] [("uid", "1")] "dept" ("tel", "dept") (by decide)⟩

/-- Witness for C5: appending source column `"name"` when the target already
has a `"name"` header. -/
theorem append_mode_collision_resolution_witness :
    (⟨true, "name", NEW_COL_SENTINEL, "overwrite"⟩ : MappingEntry).fullVar ≠ "" ∧
    planStep ((["name"], []) : List String × List (String × String))
        ⟨true, "name", NEW_COL_SENTINEL, "overwrite"⟩ =
      (["name"] ++ [findWriteCol "name" ["name"]],
       [] ++ [("name", findWriteCol "name" ["name"])]) :=
  ⟨by decide, (append_mode_collision_resolution
    ((["name"], []) : List String × List (String × String))
    ⟨true, "name", NEW_COL_SENTINEL, "overwrite"⟩ (by decide) (by decide)).2.1⟩

/-- Witness for C6: the key column `"uid"` is not a write column of the plan. -/
theorem non_write_columns_unchanged_witness :
    ("uid" : String) ∉ ([("name", "dept")] : List (String × String)).map (fun p => p.2) ∧
    alistGet (outputRow ([] : List (String × Row)) "uid" [("name", "dept")]
        [("uid", "1")]) "uid" = alistGet ([("uid", "1")] : Row) "uid" :=
  ⟨by decide, non_write_columns_unchanged ([] : List (String × Row)) "uid"
    [("name", "dept")] [("uid", "1")] "uid" (by decide)⟩

/-- Witness for C10: the reference key `"id"` is absent from the single
reference row. -/
theorem absent_reference_key_column_witness :
    (∀ r ∈ ([[("x", "1")]] : List Row), alistGet r "id" = Option.none) ∧
    buildLookup [[("x", "1")]] "id" = [] ∧
    (runExport [[("x", "1")]] "id" ["uid", "dept"] [[("uid", "1")]] "uid"
      [⟨true, "name", "dept", "overwrite"⟩]).2.2 = 0 ∧
    (runExport [[("x", "1")]] "id" ["uid", "dept"] [[("uid", "1")]] "uid"
      [⟨true, "name", "dept", "overwrite"⟩]).2.1 =
      ([[("uid", "1")]] : List Row).map (fun row =>
        (buildPlan ["uid", "dept"] [⟨true, "name", "dept", "overwrite"⟩]).2.foldl
          (fun nr p => alistInsert nr p.2 "") row) :=
  ⟨by decide,
   (absent_reference_key_column [[("x", "1")]] "id" ["uid", "dept"] [[("uid", "1")]] "uid"
     [⟨true, "name", "dept", "overwrite"⟩] (by decide)).1,
   (absent_reference_key_column [[("x", "1")]] "id" ["uid", "dept"] [[("uid", "1")]] "uid"
     [⟨true, "name", "dept", "overwrite"⟩] (by decide)).2.1,
   (absent_reference_key_column [[("x", "1")]] "id" ["uid", "dept"] [[("uid", "1")]] "uid"
     [⟨true, "name", "dept", "overwrite"⟩] (by decide)).2.2.1⟩

/-! ## csv serialize/parse round-trip lemmas -/

theorem string_mk_data (s : String) : String.mk s.data = s := by
  cases s
  rfl

theorem not_special_parts (c : Char) (h : csvSpecial c = false) :
    ¬c = ',' ∧ ¬c = '"' ∧ ¬c = '\r' ∧ ¬c = '\n' := by
  refine ⟨?_, ?_, ?_, ?_⟩ <;> intro hc <;> subst hc <;> simp [csvSpecial] at h

theorem step_inField_other (recs : List (List String)) (cur : List String)
    (field : List Char) (c : Char) (h : csvSpecial c = false) :
    csvStep ⟨recs, cur, field, .inField⟩ c = ⟨recs, cur, field ++ [c], .inField⟩ := by
  obtain ⟨h1, _, h3, h4⟩ := not_special_parts c h
  simp [csvStep, h1, h3, h4]

theorem step_inQuoted_other (recs : List (List String)) (cur : List String)
    (field : List Char) (c : Char) (h : ¬c = '"') :
    csvStep ⟨recs, cur, field, .inQuoted⟩ c = ⟨recs, cur, field ++ [c], .inQuoted⟩ := by
  simp [csvStep, h]

theorem step_inQuoted_quote (recs : List (List String)) (cur : List String)
    (field : List Char) :
    csvStep ⟨recs, cur, field, .inQuoted⟩ '"' = ⟨recs, cur, field, .quoteInQuoted⟩ := by
  simp [csvStep]

theorem step_quoteInQuoted_quote (recs : List (List String)) (cur : List String)
    (field : List Char) :
    csvStep ⟨recs, cur, field, .quoteInQuoted⟩ '"' = ⟨recs, cur, field ++ ['"'], .inQuoted⟩ := by
  simp [csvStep]

theorem step_quoteInQuoted_comma (recs : List (List String)) (cur : List String)
    (field : List Char) :
    csvStep ⟨recs, cur, field, .quoteInQuoted⟩ ',' =
      ⟨recs, cur ++ [String.mk field], [], .startField⟩ := by
  simp [csvStep, pushField]

theorem step_quoteInQuoted_cr (recs : List (List String)) (cur : List String)
    (field : List Char) :
    csvStep ⟨recs, cur, field, .quoteInQuoted⟩ '\r' =
      ⟨recs ++ [cur ++ [String.mk field]], [], [], .eatCrlf⟩ := by
  simp [csvStep, pushField, emitRec]

theorem step_inField_comma (recs : List (List String)) (cur : List String)
    (field : List Char) :
    csvStep ⟨recs, cur, field, .inField⟩ ',' =
      ⟨recs, cur ++ [String.mk field], [], .startField⟩ := by
  simp [csvStep, pushField]

theorem step_inField_cr (recs : List (List String)) (cur : List String)
    (field : List Char) :
    csvStep ⟨recs, cur, field, .inField⟩ '\r' =
      ⟨recs ++ [cur ++ [String.mk field]], [], [], .eatCrlf⟩ := by
  simp [csvStep, pushField, emitRec]

theorem step_startField_quote (recs : List (List String)) (cur : List String)
    (field : List Char) :
    csvStep ⟨recs, cur, field, .startField⟩ '"' = ⟨recs, cur, field, .inQuoted⟩ := by
  simp [csvStep]

theorem step_startField_other (recs : List (List String)) (cur : List String)
    (field : List Char) (c : Char) (h : csvSpecial c = false) :
    csvStep ⟨recs, cur, field, .startField⟩ c = ⟨recs, cur, field ++ [c], .inField⟩ := by
  obtain ⟨h1, h2, h3, h4⟩ := not_special_parts c h
  simp [csvStep, h1, h2, h3, h4]

theorem step_startField_comma (recs : List (List String)) (cur : List String)
    (field : List Char) :
    csvStep ⟨recs, cur, field, .startField⟩ ',' = ⟨recs, cur ++ [""], field, .startField⟩ := by
  simp [csvStep]

theorem step_startField_cr (recs : List (List String)) (cur : List String)
    (field : List Char) :
    csvStep ⟨recs, cur, field, .startField⟩ '\r' =
      ⟨recs ++ [cur ++ [String.mk field]], [], [], .eatCrlf⟩ := by
  simp [csvStep, pushField, emitRec]

theorem step_eatCrlf_lf (recs : List (List String)) (cur : List String)
    (field : List Char) :
    csvStep ⟨recs, cur, field, .eatCrlf⟩ '\n' = ⟨recs, cur, field, .startRecord⟩ := by
  simp [csvStep]

theorem consume_unquoted : ∀ (cs : List Char), (∀ c ∈ cs, csvSpecial c = false) →
    ∀ (recs : List (List String)) (cur : List String) (field : List Char),
      List.foldl csvStep ⟨recs, cur, field, .inField⟩ cs =
        ⟨recs, cur, field ++ cs, .inField⟩ := by
  intro cs
  induction cs with
  | nil => intro _ recs cur field; simp
  | cons c rest ih =>
    intro h recs cur field
    rw [List.foldl_cons, step_inField_other recs cur field c (h c (List.mem_cons_self c rest))]
    rw [ih (fun x hx => h x (List.mem_cons_of_mem _ hx))]
    simp

theorem consume_quoted : ∀ (cs : List Char) (recs : List (List String)) (cur : List String)
    (field : List Char),
    List.foldl csvStep ⟨recs, cur, field, .inQuoted⟩ (escQuotes cs) =
      ⟨recs, cur, field ++ cs, .inQuoted⟩ := by
  intro cs
  induction cs with
  | nil => intro recs cur field; simp [escQuotes]
  | cons c rest ih =>
    intro recs cur field
    by_cases hc : c = '"'
    · subst hc
      rw [show escQuotes ('"' :: rest) = '"' :: '"' :: escQuotes rest from by
        simp [escQuotes]]
      rw [List.foldl_cons, step_inQuoted_quote, List.foldl_cons, step_quoteInQuoted_quote]
      rw [ih]
      simp
    · rw [show escQuotes (c :: rest) = c :: escQuotes rest from by simp [escQuotes, hc]]
      rw [List.foldl_cons, step_inQuoted_other recs cur field c hc]
      rw [ih]
      simp

theorem needsQuote_false_all (f : String) (hq : needsQuote f = false) :
    ∀ c ∈ f.data, csvSpecial c = false := by
  rw [needsQuote] at hq
  intro c hc
  by_contra hcs
  have : f.data.any csvSpecial = true :=
    List.any_eq_true.mpr ⟨c, hc, by revert hcs; cases csvSpecial c <;> simp⟩
  rw [this] at hq
  simp at hq

theorem data_nil_imp_empty (f : String) (h : f.data = []) : f = "" := by
  have := string_mk_data f
  rw [h] at this
  exact this.symm.trans rfl

theorem serField_then_comma (f : String) (recs : List (List String)) (cur : List String) :
    List.foldl csvStep ⟨recs, cur, [], .startField⟩ (serField f ++ [',']) =
      ⟨recs, cur ++ [f], [], .startField⟩ := by
  cases hq : needsQuote f with
  | true =>
    rw [serField, if_pos (by rw [hq])]
    rw [show ('"' :: (escQuotes f.data ++ ['"'])) ++ [','] =
        '"' :: ((escQuotes f.data ++ ['"']) ++ [',']) from rfl]
    rw [List.foldl_cons, step_startField_quote, List.append_assoc, List.foldl_append]
    rw [consume_quoted f.data recs cur []]
    rw [show (['"'] ++ [','] : List Char) = ['"', ','] from rfl]
    rw [List.foldl_cons, step_inQuoted_quote, List.foldl_cons, step_quoteInQuoted_comma]
    simp [string_mk_data]
  | false =>
    rw [serField, if_neg (by rw [hq]; exact Bool.false_ne_true)]
    by_cases hf : f = ""
    · subst hf
      rw [show ("" : String).data = [] from rfl]
      rw [List.nil_append, List.foldl_cons, step_startField_comma]
      simp
    · cases hd : f.data with
      | nil => exact absurd (data_nil_imp_empty f hd) hf
      | cons c cs =>
        have hall := needsQuote_false_all f hq
        rw [hd] at hall
        rw [List.cons_append, List.foldl_cons]
        rw [step_startField_other recs cur [] c (hall c (List.mem_cons_self c cs)),
          List.foldl_append]
        rw [consume_unquoted cs (fun x hx => hall x (List.mem_cons_of_mem _ hx)) recs cur
          ([] ++ [c])]
        rw [List.foldl_cons, step_inField_comma]
        have : [] ++ [c] ++ cs = f.data := by rw [hd]; simp
        rw [this, string_mk_data]
        simp

theorem serField_then_cr (f : String) (recs : List (List String)) (cur : List String) :
    List.foldl csvStep ⟨recs, cur, [], .startField⟩ (serField f ++ ['\r']) =
      ⟨recs ++ [cur ++ [f]], [], [], .eatCrlf⟩ := by
  cases hq : needsQuote f with
  | true =>
    rw [serField, if_pos (by rw [hq])]
    rw [show ('"' :: (escQuotes f.data ++ ['"'])) ++ ['\r'] =
        '"' :: ((escQuotes f.data ++ ['"']) ++ ['\r']) from rfl]
    rw [List.foldl_cons, step_startField_quote, List.append_assoc, List.foldl_append]
    rw [consume_quoted f.data recs cur []]
    rw [show (['"'] ++ ['\r'] : List Char) = ['"', '\r'] from rfl]
    rw [List.foldl_cons, step_inQuoted_quote, List.foldl_cons, step_quoteInQuoted_cr]
    simp [string_mk_data]
  | false =>
    rw [serField, if_neg (by rw [hq]; exact Bool.false_ne_true)]
    by_cases hf : f = ""
    · subst hf
      rw [show ("" : String).data = [] from rfl]
      rw [List.nil_append, List.foldl_cons, step_startField_cr]
      simp [show String.mk [] = "" from rfl]
    · cases hd : f.data with
      | nil => exact absurd (data_nil_imp_empty f hd) hf
      | cons c cs =>
        have hall := needsQuote_false_all f hq
        rw [hd] at hall
        rw [List.cons_append, List.foldl_cons]
        rw [step_startField_other recs cur [] c (hall c (List.mem_cons_self c cs)),
          List.foldl_append]
        rw [consume_unquoted cs (fun x hx => hall x (List.mem_cons_of_mem _ hx)) recs cur
          ([] ++ [c])]
        rw [List.foldl_cons, step_inField_cr]
        have : [] ++ [c] ++ cs = f.data := by rw [hd]; simp
        rw [this, string_mk_data]
        simp

theorem serRecord_consume : ∀ (r : List String), r ≠ [] →
    ∀ (recs : List (List String)) (cur : List String),
      List.foldl csvStep ⟨recs, cur, [], .startField⟩ (serRecord r ++ ['\r', '\n']) =
        ⟨recs ++ [cur ++ r], [], [], .startRecord⟩ := by
  intro r
  induction r with
  | nil => intro h; exact absurd rfl h
  | cons f rest ih =>
    intro _ recs cur
    cases rest with
    | nil =>
      by_cases hf : f = ""
      · subst hf
        rw [show serRecord [""] = ['"', '"'] from rfl]
        rw [show (['"', '"'] ++ ['\r', '\n'] : List Char) = ['"', '"', '\r', '\n'] from rfl]
        rw [List.foldl_cons, step_startField_quote, List.foldl_cons, step_inQuoted_quote,
          List.foldl_cons, step_quoteInQuoted_cr, List.foldl_cons, step_eatCrlf_lf]
        simp [show String.mk [] = "" from rfl]
      · rw [show serRecord [f] = serField f from by rw [serRecord, if_neg hf]]
        rw [show serField f ++ ['\r', '\n'] = (serField f ++ ['\r']) ++ ['\n'] from by simp]
        rw [List.foldl_append, serField_then_cr, List.foldl_cons, step_eatCrlf_lf]
        simp
    | cons g rest2 =>
      rw [show serRecord (f :: g :: rest2) = serField f ++ ',' :: serRecord (g :: rest2)
        from rfl]
      rw [show (serField f ++ ',' :: serRecord (g :: rest2)) ++ ['\r', '\n'] =
        (serField f ++ [',']) ++ (serRecord (g :: rest2) ++ ['\r', '\n']) from by simp]
      rw [List.foldl_append, serField_then_comma]
      rw [ih (by simp) recs (cur ++ [f])]
      simp

theorem startRecord_step_eq (recs : List (List String)) (cur : List String)
    (field : List Char) (c : Char) (h1 : ¬c = '\r') (h2 : ¬c = '\n') :
    csvStep ⟨recs, cur, field, .startRecord⟩ c = csvStep ⟨recs, cur, field, .startField⟩ c := by
  by_cases hq : c = '"'
  · subst hq; simp [csvStep]
  · by_cases hc : c = ','
    · subst hc; simp [csvStep]
    · simp [csvStep, hq, hc, h1, h2]

theorem serRecord_head (r : List String) (hr1 : r ≠ []) :
    ∃ c cs, serRecord r ++ ['\r', '\n'] = c :: cs ∧ ¬c = '\r' ∧ ¬c = '\n' := by
  cases r with
  | nil => exact absurd rfl hr1
  | cons f rest =>
    by_cases hf : f = ""
    · subst hf
      cases rest with
      | nil =>
        refine ⟨'"', ['"', '\r', '\n'], ?_, by decide, by decide⟩
        rw [show serRecord [""] = ['"', '"'] from rfl]
        rfl
      | cons g rest2 =>
        refine ⟨',', serRecord (g :: rest2) ++ ['\r', '\n'], ?_, by decide, by decide⟩
        rw [show serRecord ("" :: g :: rest2) = serField "" ++ ',' :: serRecord (g :: rest2)
          from rfl]
        rw [show serField "" = [] from rfl]
        simp
    · have hser : ∃ t, serRecord (f :: rest) = serField f ++ t := by
        cases rest with
        | nil => exact ⟨[], by rw [serRecord, if_neg hf]; simp⟩
        | cons g rest2 => exact ⟨',' :: serRecord (g :: rest2), rfl⟩
      obtain ⟨t, ht⟩ := hser
      cases hq : needsQuote f with
      | true =>
        refine ⟨'"', (escQuotes f.data ++ ['"']) ++ t ++ ['\r', '\n'], ?_, by decide, by decide⟩
        rw [ht, serField, if_pos (by rw [hq])]
        simp
      | false =>
        cases hd : f.data with
        | nil => exact absurd (data_nil_imp_empty f hd) hf
        | cons c cs =>
          have hall := needsQuote_false_all f hq
          rw [hd] at hall
          have hc := hall c (List.mem_cons_self c cs)
          obtain ⟨_, _, h3, h4⟩ := not_special_parts c hc
          refine ⟨c, cs ++ t ++ ['\r', '\n'], ?_, h3, h4⟩
          rw [ht, serField, if_neg (by rw [hq]; exact Bool.false_ne_true), hd]
          simp

theorem serRecord_consume_start (r : List String) (hr1 : r ≠ [])
    (recs : List (List String)) :
    List.foldl csvStep ⟨recs, [], [], .startRecord⟩ (serRecord r ++ ['\r', '\n']) =
      ⟨recs ++ [r], [], [], .startRecord⟩ := by
  have hmain := serRecord_consume r hr1 recs []
  obtain ⟨c, cs, hser, hc1, hc2⟩ := serRecord_head r hr1
  rw [hser] at hmain ⊢
  rw [List.foldl_cons] at hmain ⊢
  rw [startRecord_step_eq recs [] [] c hc1 hc2, hmain]
  simp

theorem serializeCsv_consume : ∀ (rs : List (List String)),
    (∀ r ∈ rs, r ≠ []) →
    ∀ (recs : List (List String)),
      List.foldl csvStep ⟨recs, [], [], .startRecord⟩ (serializeCsv rs) =
        ⟨recs ++ rs, [], [], .startRecord⟩ := by
  intro rs
  induction rs with
  | nil => intro _ recs; simp [serializeCsv]
  | cons r rest ih =>
    intro h recs
    rw [show serializeCsv (r :: rest) = (serRecord r ++ ['\r', '\n']) ++ serializeCsv rest
      from by simp [serializeCsv]]
    rw [List.foldl_append]
    rw [serRecord_consume_start r (h r (List.mem_cons_self r rest)) recs]
    rw [ih (fun q hq => h q (List.mem_cons_of_mem _ hq)) (recs ++ [r])]
    simp

theorem parseCsv_serializeCsv (rs : List (List String))
    (h : ∀ r ∈ rs, r ≠ []) :
    parseCsv (serializeCsv rs) = rs := by
  rw [parseCsv, serializeCsv_consume rs h []]
  simp [csvFinish]

/-! ## DictReader dict-construction lemmas -/

theorem alistInsert_fresh {α β : Type} [DecidableEq α] :
    ∀ (l : List (α × β)) (k : α) (v : β), (∀ p ∈ l, p.1 ≠ k) →
      alistInsert l k v = l ++ [(k, v)] := by
  intro l
  induction l with
  | nil => intro k v _; rfl
  | cons p rest ih =>
    intro k v h
    rw [show alistInsert (p :: rest) k v =
      if p.1 = k then (k, v) :: rest else p :: alistInsert rest k v from rfl]
    rw [if_neg (h p (List.mem_cons_self p rest))]
    rw [ih k v (fun q hq => h q (List.mem_cons_of_mem _ hq))]
    rfl

theorem alistGet_append_left {α β : Type} [DecidableEq α] :
    ∀ (l1 l2 : List (α × β)) (k : α) (v : β), alistGet l1 k = some v →
      alistGet (l1 ++ l2) k = some v := by
  intro l1
  induction l1 with
  | nil => intro l2 k v h; simp [alistGet] at h
  | cons p rest ih =>
    intro l2 k v h
    by_cases hp : p.1 = k
    · rw [show alistGet (p :: rest) k = some p.2 from by simp [alistGet, hp]] at h
      simp [alistGet, hp, h]
    · rw [show alistGet (p :: rest) k = alistGet rest k from by simp [alistGet, hp]] at h
      rw [List.cons_append]
      rw [show alistGet (p :: (rest ++ l2)) k = alistGet (rest ++ l2) k from by
        simp [alistGet, hp]]
      exact ih l2 k v h

theorem alistGet_append_right {α β : Type} [DecidableEq α] :
    ∀ (l1 l2 : List (α × β)) (k : α), alistGet l1 k = Option.none →
      alistGet (l1 ++ l2) k = alistGet l2 k := by
  intro l1
  induction l1 with
  | nil => intro l2 k _; rfl
  | cons p rest ih =>
    intro l2 k h
    by_cases hp : p.1 = k
    · rw [show alistGet (p :: rest) k = some p.2 from by simp [alistGet, hp]] at h
      exact absurd h (by simp)
    · rw [show alistGet (p :: rest) k = alistGet rest k from by simp [alistGet, hp]] at h
      rw [List.cons_append]
      rw [show alistGet (p :: (rest ++ l2)) k = alistGet (rest ++ l2) k from by
        simp [alistGet, hp]]
      exact ih l2 k h

theorem alistGet_none_of_all_ne {α β : Type} [DecidableEq α] :
    ∀ (l : List (α × β)) (k : α), (∀ p ∈ l, p.1 ≠ k) → alistGet l k = Option.none := by
  intro l
  induction l with
  | nil => intro k _; rfl
  | cons p rest ih =>
    intro k h
    rw [show alistGet (p :: rest) k = if p.1 = k then some p.2 else alistGet rest k from rfl]
    rw [if_neg (h p (List.mem_cons_self p rest))]
    exact ih k (fun q hq => h q (List.mem_cons_of_mem _ hq))

theorem alistGet_map_value {α β γ : Type} [DecidableEq α] (g : β → γ) :
    ∀ (l : List (α × β)) (k : α),
      alistGet (l.map (fun p => (p.1, g p.2))) k = (alistGet l k).map g := by
  intro l
  induction l with
  | nil => intro k; rfl
  | cons p rest ih =>
    intro k
    by_cases hp : p.1 = k
    · simp [alistGet, hp]
    · simp [alistGet, hp, ih]

theorem zip_self_map {β : Type} (g : String → β) :
    ∀ hs : List String, hs.zip (hs.map g) = hs.map (fun h => (h, g h)) := by
  intro hs
  induction hs with
  | nil => rfl
  | cons h rest ih => simp [ih]

theorem fold_insert_zip : ∀ (hs : List String) (rec : List String) (d : PyRow),
    hs.Nodup → (∀ h ∈ hs, ∀ q ∈ d, q.1 ≠ some h) →
    (hs.zip rec).foldl (fun d p => alistInsert d (some p.1) (PyVal.str p.2)) d =
      d ++ (hs.zip rec).map (fun p => (some p.1, PyVal.str p.2)) := by
  intro hs
  induction hs with
  | nil => intro rec d _ _; simp
  | cons h hs' ih =>
    intro rec d hnd hfresh
    cases rec with
    | nil => simp
    | cons c rec' =>
      rw [show (h :: hs').zip (c :: rec') = (h, c) :: hs'.zip rec' from rfl]
      rw [List.foldl_cons, List.map_cons]
      have hins : alistInsert d (some h) (PyVal.str c) = d ++ [(some h, PyVal.str c)] :=
        alistInsert_fresh d (some h) _ (fun q hq => hfresh h (List.mem_cons_self h hs') q hq)
      rw [hins]
      have hfresh2 : ∀ h2 ∈ hs', ∀ q ∈ d ++ [(some h, PyVal.str c)], q.1 ≠ some h2 := by
        intro h2 hh2 q hq
        rcases List.mem_append.mp hq with hq1 | hq2
        · exact hfresh h2 (List.mem_cons_of_mem _ hh2) q hq1
        · have hqe : q = (some h, PyVal.str c) := by simpa using hq2
          rw [hqe]
          intro hcon
          have : h = h2 := by simpa using hcon
          exact (List.nodup_cons.mp hnd).1 (this ▸ hh2)
      rw [ih rec' (d ++ [(some h, PyVal.str c)]) hnd.of_cons hfresh2]
      simp

theorem fold_insert_restval : ∀ (ks : List String) (d : PyRow),
    ks.Nodup → (∀ h ∈ ks, ∀ q ∈ d, q.1 ≠ some h) →
    ks.foldl (fun d k => alistInsert d (some k) PyVal.none) d =
      d ++ ks.map (fun h => (some h, PyVal.none)) := by
  intro ks
  induction ks with
  | nil => intro d _ _; simp
  | cons h ks' ih =>
    intro d hnd hfresh
    rw [List.foldl_cons, List.map_cons]
    have hins : alistInsert d (some h) PyVal.none = d ++ [(some h, PyVal.none)] :=
      alistInsert_fresh d (some h) _ (fun q hq => hfresh h (List.mem_cons_self h ks') q hq)
    rw [hins]
    have hfresh2 : ∀ h2 ∈ ks', ∀ q ∈ d ++ [(some h, PyVal.none)], q.1 ≠ some h2 := by
      intro h2 hh2 q hq
      rcases List.mem_append.mp hq with hq1 | hq2
      · exact hfresh h2 (List.mem_cons_of_mem _ hh2) q hq1
      · have hqe : q = (some h, PyVal.none) := by simpa using hq2
        rw [hqe]
        intro hcon
        have : h = h2 := by simpa using hcon
        exact (List.nodup_cons.mp hnd).1 (this ▸ hh2)
    rw [ih (d ++ [(some h, PyVal.none)]) hnd.of_cons hfresh2]
    simp

theorem zip_fst_mem_take : ∀ (hs rec : List String) (p : String × String),
    p ∈ hs.zip rec → p.1 ∈ hs.take rec.length := by
  intro hs
  induction hs with
  | nil => intro rec p h; simp at h
  | cons a hs' ih =>
    intro rec p h
    cases rec with
    | nil => simp at h
    | cons c rec' =>
      rw [show (a :: hs').zip (c :: rec') = (a, c) :: hs'.zip rec' from rfl] at h
      rcases List.mem_cons.mp h with h1 | h2
      · rw [h1]
        simp
      · have := ih rec' p h2
        simp [List.take_succ_cons]
        right
        exact this

theorem nodup_take_drop_ne {α : Type} (l : List α) (n : Nat) (hnd : l.Nodup) (a b : α)
    (ha : a ∈ l.take n) (hb : b ∈ l.drop n) : a ≠ b := by
  have h := List.take_append_drop n l
  rw [← h] at hnd
  have hdisj := (List.nodup_append.mp hnd).2.2
  intro hab
  exact hdisj ha (hab ▸ hb)

theorem dictReaderRow_eq (hs rec : List String) (hnd : hs.Nodup) :
    dictReaderRow hs rec =
      (hs.zip rec).map (fun p => (some p.1, PyVal.str p.2)) ++
      (if hs.length < rec.length then [(Option.none, PyVal.list (rec.drop hs.length))]
       else (hs.drop rec.length).map (fun h => (some h, PyVal.none))) := by
  have hzip : (hs.zip rec).foldl (fun d p => alistInsert d (some p.1) (PyVal.str p.2)) [] =
      (hs.zip rec).map (fun p => (some p.1, PyVal.str p.2)) := by
    have := fold_insert_zip hs rec [] hnd (by intro h _ q hq; simp at hq)
    simpa using this
  rw [dictReaderRow]
  by_cases hlt : hs.length < rec.length
  · rw [if_pos hlt, if_pos hlt, hzip]
    apply alistInsert_fresh
    intro q hq
    rw [List.mem_map] at hq
    obtain ⟨p, _, rfl⟩ := hq
    simp
  · rw [if_neg hlt, if_neg hlt]
    by_cases hlt2 : rec.length < hs.length
    · rw [if_pos hlt2, hzip]
      apply fold_insert_restval (hs.drop rec.length)
        ((hs.zip rec).map (fun p => (some p.1, PyVal.str p.2)))
        (hnd.sublist (List.drop_sublist rec.length hs))
      intro h2 hh2 q hq
      rw [List.mem_map] at hq
      obtain ⟨p, hp, rfl⟩ := hq
      have hp1 : p.1 ∈ hs.take rec.length := zip_fst_mem_take hs rec p hp
      have := nodup_take_drop_ne hs rec.length hnd p.1 h2 hp1 hh2
      simpa using this
    · have heq : rec.length = hs.length := by omega
      rw [if_neg hlt2, hzip]
      rw [List.drop_eq_nil_of_le (by omega)]
      simp

theorem pyOrEmpty_str (s : String) : pyOrEmpty (PyVal.str s) = PyVal.str s := by
  by_cases h : s = "" <;> simp [pyOrEmpty, h]

theorem pyOrEmpty_list_ne (xs : List String) (h : xs ≠ []) :
    pyOrEmpty (PyVal.list xs) = PyVal.list xs := by
  simp [pyOrEmpty, h]

theorem dictReaderRow_exact (hs : List String) (g : String → String) (hnd : hs.Nodup) :
    (dictReaderRow hs (hs.map g)).map (fun p => (p.1, pyOrEmpty p.2)) =
      hs.map (fun h => (some h, PyVal.str (g h))) := by
  rw [dictReaderRow_eq hs (hs.map g) hnd]
  rw [List.length_map, if_neg (lt_irrefl _), List.drop_length]
  rw [show (([] : List String).map (fun h => ((some h : PyKey), PyVal.none))) = [] from rfl]
  rw [List.append_nil]
  rw [zip_self_map g hs, List.map_map, List.map_map]
  apply List.map_congr_left
  intro h _
  simp [Function.comp, pyOrEmpty_str]

theorem csvReadText_cons (hdr : List String) (rest : List (List String)) (text : List Char)
    (h : parseCsv text = hdr :: rest) :
    csvReadText text = (hdr, (rest.filter (fun r => !r.isEmpty)).map
      (fun r => (dictReaderRow hdr r).map (fun p => (p.1, pyOrEmpty p.2)))) := by
  unfold csvReadText
  rw [h]

/-- C7 (amended): writing a dataset with the CSV writer and reading it back
with the CSV reader yields the same header list in order and one read row per
written row with the string value of every header preserved — provided the
dataset has at least one column. (The writer quotes a record consisting of a
single empty field, so one-column datasets round-trip; only a zero-column
dataset writes blank lines, whose data rows the reader then skips.) -/
theorem csv_roundtrip_amended (headers : List String) (rows : List Row)
    (hnd : headers.Nodup) (h0 : headers ≠ []) :
    csvReadText (writeCsvText headers rows) =
      (headers, rows.map (fun row =>
        headers.map (fun h => (some h, PyVal.str (rowGet row h))))) := by
  have hall : ∀ r ∈ writeCsvRecords headers rows, r ≠ [] := by
    intro r hr
    rw [writeCsvRecords] at hr
    rcases List.mem_cons.mp hr with hh | hh
    · rw [hh]
      exact h0
    · rw [List.mem_map] at hh
      obtain ⟨row, hrow, rfl⟩ := hh
      intro hc
      rw [List.map_eq_nil_iff] at hc
      exact h0 hc
  have hparse : parseCsv (writeCsvText headers rows) =
      headers :: rows.map (fun r => headers.map (fun h => rowGet r h)) := by
    rw [writeCsvText, parseCsv_serializeCsv _ hall]
    rfl
  rw [csvReadText_cons headers _ _ hparse]
  have hfilter : (rows.map (fun r => headers.map (fun h => rowGet r h))).filter
      (fun r => !r.isEmpty) = rows.map (fun r => headers.map (fun h => rowGet r h)) := by
    rw [List.filter_eq_self]
    intro a ha
    rw [List.mem_map] at ha
    obtain ⟨row, _, rfl⟩ := ha
    have : headers.map (fun h => rowGet row h) ≠ [] := by
      intro hc
      rw [List.map_eq_nil_iff] at hc
      exact h0 hc
    simpa [List.isEmpty_iff]
  rw [hfilter, List.map_map]
  refine congrArg (Prod.mk headers) ?_
  apply List.map_congr_left
  intro row _
  show (dictReaderRow headers (headers.map (fun h => rowGet row h))).map
      (fun p => (p.1, pyOrEmpty p.2)) = _
  exact dictReaderRow_exact headers (fun h => rowGet row h) hnd

/-- Counterexample for C7 as stated: the dataset with the empty header list
and one row. `DictWriter.writeheader` and each data row then call
`writerow([])`, which writes a blank line (a zero-field record is not covered
by the writer's single-empty-field quoting); reading back, the blank header
line yields `fieldnames = []` and the blank data rows are skipped by
`DictReader`, so the written row is lost. -/
theorem csv_roundtrip_counterexample :
    (csvReadText (writeCsvText [] [[]])).2.length ≠ ([[]] : List Row).length := by decide

/-- Witness for C7 (amended), including a one-column dataset with an empty
cell, which round-trips thanks to the writer's single-empty-field quoting. -/
theorem csv_roundtrip_amended_witness :
    (["a", "b"] : List String).Nodup ∧
    csvReadText (writeCsvText ["a", "b"] [[("a", "x")]]) =
      (["a", "b"], ([[("a", "x")]] : List Row).map (fun row =>
        (["a", "b"] : List String).map (fun h => (some h, PyVal.str (rowGet row h))))) ∧
    csvReadText (writeCsvText ["a"] [[("a", "")]]) =
      (["a"], ([[("a", "")]] : List Row).map (fun row =>
        (["a"] : List String).map (fun h => (some h, PyVal.str (rowGet row h))))) :=
  ⟨by decide,
   csv_roundtrip_amended ["a", "b"] [[("a", "x")]] (by decide) (by decide),
   csv_roundtrip_amended ["a"] [[("a", "")]] (by decide) (by decide)⟩

theorem alistGet_cons_ne {α β : Type} [DecidableEq α] (p : α × β) (rest : List (α × β))
    (k : α) (h : ¬p.1 = k) : alistGet (p :: rest) k = alistGet rest k := by
  rw [show alistGet (p :: rest) k = if p.1 = k then some p.2 else alistGet rest k from rfl,
    if_neg h]

theorem zipPart_getD : ∀ (hs rec : List String), hs.Nodup → ∀ (i : Nat),
    (hi : i < hs.length) → i < rec.length →
    alistGet ((hs.zip rec).map (fun p => (some p.1, PyVal.str p.2)))
        (some (hs.getD i "")) = some (PyVal.str (rec.getD i "")) := by
  intro hs
  induction hs with
  | nil => intro rec _ i hi; simp at hi
  | cons a hs' ih =>
    intro rec hnd i hi hri
    cases rec with
    | nil => simp at hri
    | cons c rec' =>
      cases i with
      | zero => simp [alistGet]
      | succ i' =>
        have hi' : i' < hs'.length := by simpa using hi
        have hri' : i' < rec'.length := by simpa using hri
        have hmem : hs'.getD i' "" ∈ hs' := by
          rw [List.getD_eq_getElem hs' "" hi']
          exact List.getElem_mem hi'
        have hne : ¬a = hs'.getD i' "" := by
          intro hc
          exact (List.nodup_cons.mp hnd).1 (hc ▸ hmem)
        rw [show (a :: hs').getD (i' + 1) "" = hs'.getD i' "" from rfl]
        rw [show (c :: rec').getD (i' + 1) "" = rec'.getD i' "" from rfl]
        rw [show ((a :: hs').zip (c :: rec')).map
            (fun p => ((some p.1 : PyKey), PyVal.str p.2)) =
          (some a, PyVal.str c) :: (hs'.zip rec').map
            (fun p => ((some p.1 : PyKey), PyVal.str p.2)) from rfl]
        rw [alistGet_cons_ne ((some a : PyKey), PyVal.str c) _ _ (by
          intro hc
          exact hne (Option.some.inj hc))]
        exact ih rec' (List.nodup_cons.mp hnd).2 i' hi' hri'

theorem restval_get : ∀ (l : List String) (h : String), h ∈ l →
    alistGet (l.map (fun k => ((some k : PyKey), PyVal.none))) (some h) = some PyVal.none := by
  intro l
  induction l with
  | nil => intro h hh; simp at hh
  | cons a rest ih =>
    intro h hh
    by_cases hah : a = h
    · simp [alistGet, hah]
    · rcases List.mem_cons.mp hh with h1 | h2
      · exact absurd h1.symm hah
      · rw [show (a :: rest).map (fun k => ((some k : PyKey), PyVal.none)) =
          (some a, PyVal.none) :: rest.map (fun k => ((some k : PyKey), PyVal.none)) from rfl]
        rw [alistGet_cons_ne ((some a : PyKey), PyVal.none) _ _ (by
          intro hc
          exact hah (Option.some.inj hc))]
        exact ih h h2

/-- C9 (amended): for every delimited data record, the header columns map
positionally with string values — missing trailing cells become `""`
(`restval = None`, then the `(v or "")` cleanup) — but a record with more
cells than the header does not yield only strings: the extra cells are stored
as a Python list under the restkey `None`. -/
theorem reader_positional_and_restkey (hs rec : List String) (hnd : hs.Nodup) :
    (∀ i, i < hs.length →
      alistGet ((dictReaderRow hs rec).map (fun p => (p.1, pyOrEmpty p.2)))
          (some (hs.getD i "")) = some (PyVal.str (rec.getD i ""))) ∧
    (hs.length < rec.length →
      alistGet ((dictReaderRow hs rec).map (fun p => (p.1, pyOrEmpty p.2))) Option.none =
        some (PyVal.list (rec.drop hs.length))) := by
  constructor
  · intro i hi
    rw [alistGet_map_value, dictReaderRow_eq hs rec hnd]
    by_cases hri : i < rec.length
    · have hz := zipPart_getD hs rec hnd i hi hri
      rw [alistGet_append_left _ _ _ _ hz]
      simp [pyOrEmpty_str]
    · have hle : rec.length ≤ i := by omega
      have hdropmem : hs.getD i "" ∈ hs.drop rec.length := by
        have h2 : i - rec.length < (hs.drop rec.length).length := by
          rw [List.length_drop]
          omega
        have h3 : (hs.drop rec.length).get ⟨i - rec.length, h2⟩ = hs.get ⟨i, hi⟩ := by
          have h4 : rec.length + (i - rec.length) = i := by omega
          simp [List.getElem_drop, h4]
        rw [List.getD_eq_getElem hs "" hi]
        rw [show (hs[i] : String) = hs.get ⟨i, hi⟩ from rfl, ← h3]
        exact List.get_mem _ _ _
      have hzn : alistGet ((hs.zip rec).map (fun p => (some p.1, PyVal.str p.2)))
          (some (hs.getD i "")) = Option.none := by
        apply alistGet_none_of_all_ne
        intro q hq
        rw [List.mem_map] at hq
        obtain ⟨p, hp, rfl⟩ := hq
        have hp1 := zip_fst_mem_take hs rec p hp
        have := nodup_take_drop_ne hs rec.length hnd p.1 (hs.getD i "") hp1 hdropmem
        simpa using this
      rw [alistGet_append_right _ _ _ hzn, if_neg (by omega)]
      rw [restval_get _ _ hdropmem]
      rw [List.getD_eq_default rec "" hle]
      rfl
  · intro hlt
    rw [alistGet_map_value, dictReaderRow_eq hs rec hnd]
    have hzn : alistGet ((hs.zip rec).map (fun p => (some p.1, PyVal.str p.2)))
        Option.none = Option.none := by
      apply alistGet_none_of_all_ne
      intro q hq
      rw [List.mem_map] at hq
      obtain ⟨p, _, rfl⟩ := hq
      simp
    rw [alistGet_append_right _ _ _ hzn, if_pos hlt]
    rw [show alistGet [((Option.none : PyKey), PyVal.list (rec.drop hs.length))] Option.none =
      some (PyVal.list (rec.drop hs.length)) from by simp [alistGet]]
    have hne : rec.drop hs.length ≠ [] := by
      intro hc
      rw [List.drop_eq_nil_iff] at hc
      omega
    simp [pyOrEmpty_list_ne _ hne]

/-- Counterexample for C9 as stated: reading `"a\r\nx,y\r\n"` produces a row
whose restkey entry holds the Python list `["y"]` — not every value is a
string. -/
theorem reader_returns_nonstring_counterexample :
    ((csvReadText ("a\r\nx,y\r\n".data)).2.all (fun r => r.all (fun p => p.2.isStr))) =
      false := by decide

/-- Witness for C9 (amended): one header, a record with an extra cell. -/
theorem reader_positional_and_restkey_witness :
    (["a"] : List String).Nodup ∧
    alistGet ((dictReaderRow ["a"] ["x", "y"]).map (fun p => (p.1, pyOrEmpty p.2)))
        (some ((["a"] : List String).getD 0 "")) =
      some (PyVal.str ((["x", "y"] : List String).getD 0 "")) ∧
    alistGet ((dictReaderRow ["a"] ["x", "y"]).map (fun p => (p.1, pyOrEmpty p.2)))
        Option.none =
      some (PyVal.list ((["x", "y"] : List String).drop (["a"] : List String).length)) :=
  ⟨by decide,
   (reader_positional_and_restkey ["a"] ["x", "y"] (by decide)).1 0 (by decide),
   (reader_positional_and_restkey ["a"] ["x", "y"] (by decide)).2 (by decide)⟩

/-- Counterexample for C8 as stated: `load` of a missing `.csv` file does not
fail with the filesystem `IOError` — the `except (UnicodeDecodeError,
Exception)` clause of `_read_csv` swallows the `FileNotFoundError` of every
encoding attempt, and the encoding-detection `ValueError` is raised instead. -/
theorem missing_csv_reports_encoding_error :
    isIOErrorResult (readFileModel (fun _ => Option.none) "missing.csv") = false ∧
    readFileModel (fun _ => Option.none) "missing.csv" =
      Except.error (PyError.valueError "无法识别 CSV 文件编码，请另存为 UTF-8 格式后重试。") := by
  exact ⟨rfl, rfl⟩

/-- C8 (amended): on a missing or unreadable file, `load` fails with the
filesystem `IOError` for spreadsheet inputs (the `openpyxl` error propagates),
while for delimited inputs the per-encoding catch-all swallows the filesystem
error and the encoding-detection `ValueError` is reported instead. -/
theorem load_missing_file_errors (fs : FileSys) (path : String)
    (h : fs path = Option.none) :
    (splitextLower path = ".xlsx" ∨ splitextLower path = ".xls" ∨
        splitextLower path = ".xlsm" →
      readFileModel fs path =
        Except.error (PyError.ioError ("No such file or directory: " ++ path)) ∧
      isIOErrorResult (readFileModel fs path) = true) ∧
    (splitextLower path = ".csv" →
      readFileModel fs path =
        Except.error (PyError.valueError "无法识别 CSV 文件编码，请另存为 UTF-8 格式后重试。") ∧
      isIOErrorResult (readFileModel fs path) = false) := by
  constructor
  · intro hx
    have hnotcsv : ¬splitextLower path = ".csv" := by
      rcases hx with h1 | h1 | h1 <;> rw [h1] <;> decide
    have hdisp : readFileModel fs path = readXlsxFile fs path := by
      rw [readFileModel, if_neg hnotcsv, if_pos hx]
    have hres : readFileModel fs path =
        Except.error (PyError.ioError ("No such file or directory: " ++ path)) := by
      rw [hdisp, readXlsxFile, h]
    exact ⟨hres, by rw [hres]; rfl⟩
  · intro hc
    have hdisp : readFileModel fs path = readCsvFile fs path := by
      rw [readFileModel, if_pos hc]
    have htry : ∀ enc, readCsvTry fs path enc =
        Except.error (PyError.ioError ("No such file or directory: " ++ path)) := by
      intro enc
      rw [readCsvTry, h]
    have hloop : ∀ encs : List String, readCsvLoop fs path encs =
        Except.error (PyError.valueError "无法识别 CSV 文件编码，请另存为 UTF-8 格式后重试。") := by
      intro encs
      induction encs with
      | nil => rfl
      | cons e rest ih =>
        rw [show readCsvLoop fs path (e :: rest) =
          (match readCsvTry fs path e with
           | .ok v => .ok v
           | .error _ => readCsvLoop fs path rest) from rfl]
        rw [htry e]
        exact ih
    have hres : readFileModel fs path =
        Except.error (PyError.valueError "无法识别 CSV 文件编码，请另存为 UTF-8 格式后重试。") := by
      rw [hdisp, readCsvFile, hloop]
    exact ⟨hres, by rw [hres]; rfl⟩

/-- Witness for C8 (amended) on the missing paths `m.xlsx` and `m.csv`. -/
theorem load_missing_file_errors_witness :
    ((fun _ => Option.none : FileSys) "m.xlsx" = Option.none) ∧
    (readFileModel (fun _ => Option.none) "m.xlsx" =
        Except.error (PyError.ioError ("No such file or directory: " ++ "m.xlsx")) ∧
      isIOErrorResult (readFileModel (fun _ => Option.none) "m.xlsx") = true) ∧
    (readFileModel (fun _ => Option.none) "m.csv" =
        Except.error (PyError.valueError "无法识别 CSV 文件编码，请另存为 UTF-8 格式后重试。") ∧
      isIOErrorResult (readFileModel (fun _ => Option.none) "m.csv") = false) :=
  ⟨rfl,
   (load_missing_file_errors (fun _ => Option.none) "m.xlsx" rfl).1 (Or.inl (by decide)),
   (load_missing_file_errors (fun _ => Option.none) "m.csv" rfl).2 (by decide)⟩
